import Mathlib

/-!
Verification development for the rustbot command bot (src/src/main.rs).

Rust strings are modelled as lists of Unicode characters (`Str := List Char`);
byte positions into a Rust `str` are modelled through the UTF-8 size of each
character (`Char.utf8Size`, identical to the encoding of Rust). Fallible Rust
operations (`str::get`) return `Option`; functions returning `Result<_, Error>`
are modelled with `Except Error`. Components of the repository that live in
modules outside the provided sources (the dispatcher of commands.rs, the guard
of api.rs, the registry insertion helpers) are modelled from the specification
and marked as such in their doc comments.
-/

set_option maxRecDepth 8000

namespace Rustbot

/-- A Rust string slice, modelled as its sequence of Unicode characters. -/
abbrev Str := List Char

instance {ε α : Type} [DecidableEq ε] [DecidableEq α] : DecidableEq (Except ε α) :=
  fun a b =>
    match a, b with
    | .ok x, .ok y =>
      if h : x = y then .isTrue (by rw [h]) else .isFalse (by simp [h])
    | .error x, .error y =>
      if h : x = y then .isTrue (by rw [h]) else .isFalse (by simp [h])
    | .ok _, .error _ => .isFalse (by simp)
    | .error _, .ok _ => .isFalse (by simp)

/-- Byte length of a string: the sum of the UTF-8 sizes of its characters
(Rust `str::len`). -/
def byteLen (s : Str) : Nat := (s.map Char.utf8Size).sum

/-- Rust `char::is_whitespace`: membership in the Unicode White_Space set. -/
def rustIsWhitespace (c : Char) : Bool :=
  let n := c.toNat
  n == 0x09 || n == 0x0A || n == 0x0B || n == 0x0C || n == 0x0D ||
  n == 0x20 || n == 0x85 || n == 0xA0 || n == 0x1680 ||
  (0x2000 ≤ n && n ≤ 0x200A) || n == 0x2028 || n == 0x2029 ||
  n == 0x202F || n == 0x205F || n == 0x3000

/-- Rust `str::trim`: remove leading and trailing Unicode whitespace. -/
def rustTrim (s : Str) : Str :=
  ((s.dropWhile rustIsWhitespace).reverse.dropWhile rustIsWhitespace).reverse

/-- Rust `str::is_char_boundary`: byte index 0 is always a boundary, an index
inside the UTF-8 encoding of a character is not, and an index past the end of
the string is not. -/
def isCharBoundary : Str → Nat → Bool
  | _, 0 => true
  | [], _ + 1 => false
  | c :: rest, i + 1 =>
    if i + 1 < c.utf8Size then false else isCharBoundary rest (i + 1 - c.utf8Size)

/-- The characters of a string that fit in the first `n` bytes: Rust slicing
`s[..n]` when `n` is a char boundary. -/
def takeBytes : Str → Nat → Str
  | _, 0 => []
  | [], _ + 1 => []
  | c :: rest, n + 1 =>
    if c.utf8Size ≤ n + 1 then c :: takeBytes rest (n + 1 - c.utf8Size) else []

/-- Drop the first `n` bytes of a string: Rust slicing `s[n..]` when `n` is a
char boundary. -/
def dropBytes : Str → Nat → Str
  | s, 0 => s
  | [], _ + 1 => []
  | c :: rest, n + 1 =>
    if c.utf8Size ≤ n + 1 then dropBytes rest (n + 1 - c.utf8Size) else c :: rest

/-- Rust `str::get(a..b)`: `Some` of the sub-slice when `a ≤ b`, `b` is in
bounds and both ends are char boundaries; `None` otherwise. -/
def rustGet (s : Str) (a b : Nat) : Option Str :=
  if a ≤ b ∧ b ≤ byteLen s ∧ isCharBoundary s a ∧ isCharBoundary s b then
    some (takeBytes (dropBytes s a) (b - a))
  else
    none

/-- Rust `str::find(char::is_whitespace)`: the byte index of the first
whitespace character, if any. -/
def findWs : Str → Option Nat
  | [] => none
  | c :: rest =>
    if rustIsWhitespace c then some 0 else (findWs rest).map (· + c.utf8Size)

/-- The `Error` enum of src/src/main.rs. The boxed cause of `Unknown` is
modelled by its rendered text. -/
inductive Error where
  | MissingCodeblock
  | NoCratesFound
  | MissingPermissions
  | EvalWithFnMain
  | Unknown (cause : String)
deriving DecidableEq, Repr

/-- The `Display` implementation for `Error` in src/src/main.rs. -/
def Error.display : Error → String
  | .MissingCodeblock =>
      "Missing code block. Please use the following markdown:\n\\\x60code here\\\x60\nor\n\\\x60\\\x60\\\x60rust\ncode here\n\\\x60\\\x60\\\x60"
  | .NoCratesFound => "No crates found"
  | .MissingPermissions => "You are not allowed to use this command"
  | .EvalWithFnMain => "Code passed to ?eval should not contain \x60fn main\x60"
  | .Unknown cause => "Unexpected error (" ++ cause ++ ")"

/-- `extract_code` from src/src/main.rs: extract code from a Discord code
block on a best-effort basis. The trimmed input is checked first for a triple
backtick fence (the code starts at the first whitespace character, skipping a
language specifier, and ends three bytes before the end), then for a single
backtick fence (the code is the interior); checked sub-slicing (`str::get`)
failures and the no-fence case all collapse to `Err(MissingCodeblock)`. -/
def extract_code_inner (input : Str) : Option Str :=
  let input := rustTrim input
  if "\x60\x60\x60".toList.isPrefixOf input && "\x60\x60\x60".toList.isSuffixOf input then
    match findWs input with
    | none => none
    | some code_starting_point =>
      let code_end_point := byteLen input - 3
      match rustGet input code_starting_point code_end_point with
      | none => none
      | some extracted_code => some (rustTrim extracted_code)
  else if ['\x60'].isPrefixOf input && ['\x60'].isSuffixOf input then
    match rustGet input 1 (byteLen input - 1) with
    | none => none
    | some extracted_code => some (rustTrim extracted_code)
  else
    none

/-- The `inner(input).ok_or(Error::MissingCodeblock)` wrapper of
`extract_code`. -/
def extract_code (input : Str) : Except Error Str :=
  match extract_code_inner input with
  | some code => Except.ok code
  | none => Except.error Error.MissingCodeblock

/-- One step of splitting a string at newline characters: `n` newlines yield
`n + 1` pieces (the pieces do not contain the newlines). -/
def splitNl : Str → List Str
  | [] => [[]]
  | c :: rest =>
    if c = '\n' then [] :: splitNl rest
    else
      match splitNl rest with
      | s :: ss => (c :: s) :: ss
      | [] => [[c]]

/-- Remove one trailing carriage return, if present. -/
def stripCr (s : Str) : Str :=
  if s.getLast? = some '\r' then s.dropLast else s

/-- Rust `str::lines`: split at newline characters; every piece that was
followed by a newline has one trailing carriage return stripped; the final
piece is dropped when empty (so a trailing line ending does not produce an
extra empty line) and is otherwise kept verbatim. -/
def rustLines (s : Str) : List Str :=
  match (splitNl s).reverse with
  | [] => []
  | last :: revInit =>
    let init := revInit.reverse.map stripCr
    if last = [] then init else init ++ [last]

/-- Join strings with newline separators (Rust `Vec::join("\n")`). -/
def joinNl (pieces : List Str) : Str := List.intercalate ['\n'] pieces

/-- The cut-off-point search loop of `reply_potentially_long_text`: starting
from the candidate index, step down one byte at a time until a char boundary
is reached (index 0 always is one). -/
def cutOffPoint (s : Str) : Nat → Nat
  | 0 => 0
  | i + 1 => if isCharBoundary s (i + 1) then i + 1 else cutOffPoint s i

/-- `MAX_OUTPUT_LINES` from `reply_potentially_long_text`. -/
def MAX_OUTPUT_LINES : Nat := 45

/-- The message built by `reply_potentially_long_text` in src/src/main.rs.
The 2000-character limit is checked first; in that branch the body is cut at
`available_space = 2000 - len(text_end) - len(truncation_msg)`, moved down to
a char boundary; otherwise, a body of more than 45 lines is cut to its first
45 lines. `none` models the panic of the unsigned subtraction when
`len(text_end) + len(truncation_msg)` exceeds 2000. -/
def reply_potentially_long_text (text_body text_end truncation_msg : Str) :
    Option Str :=
  if byteLen text_body + byteLen text_end > 2000 then
    if byteLen text_end + byteLen truncation_msg ≤ 2000 then
      let available_space := 2000 - byteLen text_end - byteLen truncation_msg
      let cut := cutOffPoint text_body available_space
      some (takeBytes text_body cut ++ text_end ++ truncation_msg)
    else
      none
  else if (rustLines text_body).length > MAX_OUTPUT_LINES then
    some (joinNl ((rustLines text_body).take MAX_OUTPUT_LINES) ++ text_end ++
      truncation_msg)
  else
    some (text_body ++ text_end)

/-- The data of an invocation that guards and handlers consume: the command
body, and the role membership of the invoking author (the synchronous role-store
lookup of the spec, keyed by role name). -/
structure Args where
  body : Str
  hasRole : String → Bool

/-- Modelled from the spec: `api::is_mod` (src/api.rs is not among the
sources). The guard checks whether the invoking user holds the role named
"mod", looked up fresh from the role store on every evaluation; `Allow` and
`Deny` are `Ok(true)` and `Ok(false)`. -/
def is_mod (args : Args) : Except Error Bool := Except.ok (args.hasRole "mod")

/-- Modelled from the spec: unprotected commands use a constant `Allow`
guard. -/
def alwaysAllow (_ : Args) : Except Error Bool := Except.ok true

/-- One entry of the help-menu registry: the value type of the
`IndexMap<&str, (&str, GuardFn)>` consumed by `main_menu`, together with its
key. -/
structure MenuEntry where
  name : String
  description : String
  guard : Args → Except Error Bool

/-- One rendered menu line: tab, question mark, the command name left-aligned
to width 12, the description, newline (the format string of `main_menu`). -/
def menuLine (cmd desc : String) : Str :=
  '\t' :: '?' :: (cmd.toList ++ List.replicate (12 - cmd.length) ' ') ++
    desc.toList ++ ['\n']

/-- `main_menu` from src/src/main.rs: starting from a header, append a line
for every registry entry whose guard returns `Ok(true)` for the requesting
user, in registry order; then the help entry and the fixed footer. -/
def main_menu (args : Args) (commands : List MenuEntry) : Str :=
  let menu := "Commands:\n".toList
  let menu := commands.foldl
    (fun m e =>
      if e.guard args = Except.ok true then m ++ menuLine e.name e.description
      else m)
    menu
  let menu := menu ++ menuLine "help" "This menu"
  let menu := menu ++ "\nType ?help command for more info on a command.".toList
  let menu := menu ++ "\n\nAdditional Info:\n".toList
  menu ++
    "\tYou can edit your message to the bot and the bot will edit its response.".toList

/-- The help-menu registry built by the `help`/`help_protected` calls of
`app()` in src/src/main.rs (with both config gates enabled), in call order,
with the description strings of the source. The insertion itself
(`Commands::help`, `Commands::help_protected` of src/commands.rs, not among
the sources) is modelled from the spec: an ordered map that records name,
description and guard in registration order, the guard being constant-allow
for unprotected entries. -/
def helpMenu : List MenuEntry :=
  [⟨"crate", "Lookup crates on crates.io", alwaysAllow⟩,
   ⟨"docs", "Lookup documentation", alwaysAllow⟩,
   ⟨"play", "Compile and run rust code in a playground", alwaysAllow⟩,
   ⟨"eval", "Evaluate a single rust expression", alwaysAllow⟩,
   ⟨"miri", "Run code and detect undefined behavior using Miri", alwaysAllow⟩,
   ⟨"expand", "Expand macros to their raw desugared form", alwaysAllow⟩,
   ⟨"clippy", "Catch common mistakes using the Clippy linter", alwaysAllow⟩,
   ⟨"fmt", "Format code using rustfmt", alwaysAllow⟩,
   ⟨"go", "Evaluates Go code", alwaysAllow⟩,
   ⟨"godbolt", "View assembly using Godbolt", alwaysAllow⟩,
   ⟨"cleanup", "Deletes the bot\x27s messages for cleanup", alwaysAllow⟩,
   ⟨"source", "Links to the bot GitHub repo", alwaysAllow⟩,
   ⟨"slowmode", "Set slowmode on a channel", is_mod⟩,
   ⟨"kick", "Kick a user from the guild", is_mod⟩,
   ⟨"ban", "Temporarily ban a user from the guild", is_mod⟩,
   ⟨"CoC", "Post the code of conduct message to a channel", is_mod⟩]

/-- The outcome of dispatching one invocation: whether the handler ran, and
the reply text sent on failure or denial. -/
structure DispatchResult where
  handlerRan : Bool
  reply : Option String
deriving DecidableEq, Repr

/-- Modelled from the spec: `Commands::execute` (src/commands.rs is not among
the sources). Per the Guard Evaluator and Dispatcher sections of the spec:
evaluate the guard immediately before the handler; `Allow` runs the handler
(a handler error is rendered and sent as the reply); `Deny` skips the handler
and replies with the `MissingPermissions` text; `Failed(e)` skips the handler
and replies with the rendered text of `e`. -/
def dispatch (guard : Args → Except Error Bool)
    (handler : Args → Except Error Unit) (args : Args) : DispatchResult :=
  match guard args with
  | .ok true =>
    match handler args with
    | .ok _ => ⟨true, none⟩
    | .error e => ⟨true, some e.display⟩
  | .ok false => ⟨false, some Error.MissingPermissions.display⟩
  | .error e => ⟨false, some e.display⟩

/-- The commands registered through `add_protected` in `app()`
(src/src/main.rs), each paired with its guard — `api::is_mod` for all four. -/
def protectedCommands : List (String × (Args → Except Error Bool)) :=
  [("slowmode", is_mod), ("kick", is_mod), ("ban", is_mod), ("CoC", is_mod)]

/-- The help command handler registered in `app()` (src/src/main.rs): when
the invocation body is empty, send the rendered main menu wrapped in a triple
backtick fence, else do nothing; either way return `Ok(())`. Sending is
modelled by returning the sent text (`api::send_reply` is not among the
sources). -/
def helpCommand (menu : List MenuEntry) (args : Args) :
    Except Error (Option Str) :=
  if args.body.isEmpty then
    Except.ok (some ("\x60\x60\x60".toList ++ main_menu args menu ++
      "\x60\x60\x60".toList))
  else
    Except.ok none

/-- Look up the response id recorded for an invoking message id in the
command history (the `IndexMap<MessageId, MessageId>` of the spec, modelled
as an association list with distinct keys). -/
def lookupAssoc : List (Nat × Nat) → Nat → Option Nat
  | [], _ => none
  | p :: rest, k => if p.1 = k then some p.2 else lookupAssoc rest k

/-- Remove the entry for a key from the history map (`IndexMap::remove`; on
an association list with distinct keys, dropping every pair with that
key). -/
def removeKey : List (Nat × Nat) → Nat → List (Nat × Nat)
  | [], _ => []
  | p :: rest, k => if p.1 = k then removeKey rest k else p :: removeKey rest k

/-- `Events::message_delete` from src/src/main.rs: remove the invoking
record of the invoking message from the command history; when a record existed, issue one
`delete_message` call for the recorded response id. The second component is
the sequence of delete calls issued. -/
def message_delete (history : List (Nat × Nat)) (message_id : Nat) :
    List (Nat × Nat) × List Nat :=
  match lookupAssoc history message_id with
  | some response_id => (removeKey history message_id, [response_id])
  | none => (history, [])

/-- A requesting user holding no role at all (in particular not "mod"), with
an empty body. -/
def noModArgs : Args := ⟨[], fun _ => false⟩

/-- A requesting user holding every role (in particular "mod"), with an empty
body. -/
def modArgs : Args := ⟨[], fun _ => true⟩

/-! ## Helper lemmas about the string model -/

theorem byteLen_nil : byteLen [] = 0 := rfl

theorem byteLen_cons (c : Char) (s : Str) :
    byteLen (c :: s) = c.utf8Size + byteLen s := by
  simp [byteLen]

theorem byteLen_append (a b : Str) : byteLen (a ++ b) = byteLen a + byteLen b := by
  simp [byteLen]

theorem byteLen_replicate (n : Nat) (c : Char) :
    byteLen (List.replicate n c) = n * c.utf8Size := by
  induction n with
  | zero => simp [byteLen]
  | succ k ih => rw [List.replicate_succ, byteLen_cons, ih, Nat.succ_mul]; ring

theorem isCharBoundary_zero (s : Str) : isCharBoundary s 0 = true := by
  cases s <;> rfl

theorem isCharBoundary_le (s : Str) (n : Nat) (h : isCharBoundary s n = true) :
    n ≤ byteLen s := by
  induction s generalizing n with
  | nil =>
    cases n with
    | zero => exact Nat.le_refl 0
    | succ k => simp [isCharBoundary] at h
  | cons c rest ih =>
    cases n with
    | zero => exact Nat.zero_le _
    | succ k =>
      simp only [isCharBoundary] at h
      split at h
      case isTrue => exact absurd h (by simp)
      case isFalse hse =>
        have := ih _ h
        rw [byteLen_cons]
        omega

theorem takeBytes_isPrefix (s : Str) (n : Nat) : takeBytes s n <+: s := by
  induction s generalizing n with
  | nil => cases n <;> simp [takeBytes]
  | cons c rest ih =>
    cases n with
    | zero => simp [takeBytes]
    | succ k =>
      simp only [takeBytes]
      split
      case isTrue => exact List.cons_prefix_cons.mpr ⟨rfl, ih _⟩
      case isFalse => simp

theorem byteLen_takeBytes (s : Str) (n : Nat) (h : isCharBoundary s n = true) :
    byteLen (takeBytes s n) = n := by
  induction s generalizing n with
  | nil =>
    cases n with
    | zero => rfl
    | succ k => simp [isCharBoundary] at h
  | cons c rest ih =>
    cases n with
    | zero => rfl
    | succ k =>
      simp only [isCharBoundary] at h
      split at h
      case isTrue => exact absurd h (by simp)
      case isFalse hse =>
        have hsz : c.utf8Size ≤ k + 1 := Nat.le_of_not_lt hse
        simp only [takeBytes, if_pos hsz]
        rw [byteLen_cons, ih _ h]
        omega

theorem cutOffPoint_le (s : Str) (i : Nat) : cutOffPoint s i ≤ i := by
  induction i with
  | zero => exact Nat.le_refl 0
  | succ n ih =>
    simp only [cutOffPoint]
    split
    case isTrue => exact Nat.le_refl _
    case isFalse => exact Nat.le_trans ih (Nat.le_succ n)

theorem cutOffPoint_boundary (s : Str) (i : Nat) :
    isCharBoundary s (cutOffPoint s i) = true := by
  induction i with
  | zero => exact isCharBoundary_zero s
  | succ n ih =>
    simp only [cutOffPoint]
    split
    case isTrue h => exact h
    case isFalse => exact ih

theorem cutOffPoint_greatest (s : Str) (i j : Nat) (hj : j ≤ i)
    (hb : isCharBoundary s j = true) : j ≤ cutOffPoint s i := by
  induction i with
  | zero => simpa [cutOffPoint] using hj
  | succ n ih =>
    simp only [cutOffPoint]
    split
    case isTrue => exact hj
    case isFalse hfalse =>
      rcases Nat.lt_or_ge j (n + 1) with h1 | h1
      · exact ih (Nat.le_of_lt_succ h1)
      · exact absurd (Nat.le_antisymm hj h1 ▸ hb) hfalse

theorem cutOffPoint_of_boundary (s : Str) (i : Nat)
    (h : isCharBoundary s i = true) : cutOffPoint s i = i := by
  cases i with
  | zero => rfl
  | succ n => simp [cutOffPoint, h]

theorem isCharBoundary_replicate (c : Char) (hc : c.utf8Size = 1)
    (n i : Nat) (h : i ≤ n) : isCharBoundary (List.replicate n c) i = true := by
  induction n generalizing i with
  | zero =>
    have hz : i = 0 := Nat.le_zero.mp h
    subst hz
    rfl
  | succ k ih =>
    cases i with
    | zero => exact isCharBoundary_zero _
    | succ j =>
      rw [List.replicate_succ]
      simp only [isCharBoundary, hc]
      rw [if_neg (by omega)]
      simpa using ih j (by omega)

theorem takeBytes_replicate (c : Char) (hc : c.utf8Size = 1)
    (n i : Nat) (h : i ≤ n) :
    takeBytes (List.replicate n c) i = List.replicate i c := by
  induction n generalizing i with
  | zero =>
    have hz : i = 0 := Nat.le_zero.mp h
    subst hz
    rfl
  | succ k ih =>
    cases i with
    | zero => rfl
    | succ j =>
      rw [List.replicate_succ]
      simp only [takeBytes, hc]
      rw [if_pos (by omega)]
      rw [List.replicate_succ]
      simp only [Nat.add_sub_cancel]
      rw [ih j (by omega)]

theorem findWs_eq_none (s : Str) (h : ∀ c ∈ s, rustIsWhitespace c = false) :
    findWs s = none := by
  induction s with
  | nil => rfl
  | cons c rest ih =>
    have hc : rustIsWhitespace c = false := h c (List.mem_cons_self c rest)
    have hrest : findWs rest = none :=
      ih (fun d hd => h d (List.mem_cons_of_mem c hd))
    simp [findWs, hc, hrest]

theorem lookupAssoc_removeKey_self (h : List (Nat × Nat)) (m : Nat) :
    lookupAssoc (removeKey h m) m = none := by
  induction h with
  | nil => rfl
  | cons hd tl ih =>
    by_cases hk : hd.1 = m
    · simp [removeKey, hk, ih]
    · simp [removeKey, lookupAssoc, hk, ih]

theorem lookupAssoc_removeKey_other (h : List (Nat × Nat)) (m k : Nat)
    (hk : k ≠ m) : lookupAssoc (removeKey h m) k = lookupAssoc h k := by
  induction h with
  | nil => rfl
  | cons hd tl ih =>
    by_cases h1 : hd.1 = m
    · have h2 : hd.1 ≠ k := by omega
      have h3 : m ≠ k := Ne.symm hk
      simp [removeKey, lookupAssoc, h1, h2, h3, ih]
    · simp only [removeKey, if_neg h1, lookupAssoc]
      split <;> simp [ih]

theorem foldl_menu_filter {α : Type} (p : α → Prop) [DecidablePred p]
    (f : α → Str) (l : List α) :
    ∀ acc : Str,
      l.foldl (fun m e => if p e then m ++ f e else m) acc =
        acc ++ ((l.filter fun e => decide (p e)).map f).flatten := by
  induction l with
  | nil => intro acc; simp
  | cons hd tl ih =>
    intro acc
    by_cases hp : p hd
    · rw [List.foldl_cons, if_pos hp, ih,
        List.filter_cons_of_pos (by simpa using hp)]
      simp
    · rw [List.foldl_cons, if_neg hp, ih,
        List.filter_cons_of_neg (by simpa using hp)]

/-! ## Claim theorems -/

/-- C1: whenever the body plus closing exceed the 2000-character limit (with
the closing plus marker themselves fitting in it, as the unsigned arithmetic
of the code requires), `reply_potentially_long_text` outputs the body cut at
the greatest char boundary at most `2000 - len(closing) - len(marker)` —
never splitting a multi-byte character — followed by the closing and then the
marker; and for a body of 2100 identical single-byte characters with empty
closing and marker "[TRUNCATED]", the byte length of the output is exactly 2000
and it ends with "[TRUNCATED]". -/
theorem reply_length_truncation_spec :
    (∀ text_body text_end truncation_msg : Str,
      byteLen text_end + byteLen truncation_msg ≤ 2000 →
      byteLen text_body + byteLen text_end > 2000 →
      ∃ cut,
        reply_potentially_long_text text_body text_end truncation_msg =
          some (takeBytes text_body cut ++ text_end ++ truncation_msg) ∧
        takeBytes text_body cut <+: text_body ∧
        byteLen (takeBytes text_body cut) = cut ∧
        isCharBoundary text_body cut = true ∧
        cut ≤ 2000 - byteLen text_end - byteLen truncation_msg ∧
        ∀ j, j ≤ 2000 - byteLen text_end - byteLen truncation_msg →
          isCharBoundary text_body j = true → j ≤ cut) ∧
    ∃ out,
      reply_potentially_long_text (List.replicate 2100 'a') []
          "[TRUNCATED]".toList = some out ∧
      byteLen out = 2000 ∧ "[TRUNCATED]".toList <:+ out := by
  constructor
  · intro text_body text_end truncation_msg h1 h2
    refine ⟨cutOffPoint text_body (2000 - byteLen text_end - byteLen truncation_msg),
      ?_, takeBytes_isPrefix _ _, byteLen_takeBytes _ _ (cutOffPoint_boundary _ _),
      cutOffPoint_boundary _ _, cutOffPoint_le _ _,
      fun j hj hb => cutOffPoint_greatest _ _ _ hj hb⟩
    simp only [reply_potentially_long_text]
    rw [if_pos h2, if_pos h1]
  · have ha : Char.utf8Size 'a' = 1 := rfl
    have hmark : byteLen "[TRUNCATED]".toList = 11 := rfl
    have hbody : byteLen (List.replicate 2100 'a') = 2100 := by
      rw [byteLen_replicate, ha]
    have hcond1 : byteLen (List.replicate 2100 'a') + byteLen ([] : Str) > 2000 := by
      rw [hbody, byteLen_nil]
      omega
    have hcond2 : byteLen ([] : Str) + byteLen "[TRUNCATED]".toList ≤ 2000 := by
      rw [byteLen_nil, hmark]
      omega
    have havail : (2000 : Nat) - byteLen ([] : Str) - byteLen "[TRUNCATED]".toList = 1989 := by
      rw [byteLen_nil, hmark]
    have hbd : isCharBoundary (List.replicate 2100 'a') 1989 = true :=
      isCharBoundary_replicate 'a' ha 2100 1989 (by omega)
    refine ⟨List.replicate 1989 'a' ++ "[TRUNCATED]".toList, ?_, ?_, ?_⟩
    · simp only [reply_potentially_long_text]
      rw [if_pos hcond1, if_pos hcond2, havail, cutOffPoint_of_boundary _ _ hbd,
        takeBytes_replicate 'a' ha 2100 1989 (by omega)]
      simp
    · rw [byteLen_append, byteLen_replicate, ha, hmark]
    · exact List.suffix_append _ _

/-- Witness for C1, instantiated at the 2100-character body with empty
closing and the marker "[TRUNCATED]". -/
theorem reply_length_truncation_spec_witness :
    ∃ cut,
      reply_potentially_long_text (List.replicate 2100 'a') []
          "[TRUNCATED]".toList =
        some (takeBytes (List.replicate 2100 'a') cut ++ [] ++
          "[TRUNCATED]".toList) ∧
      takeBytes (List.replicate 2100 'a') cut <+: List.replicate 2100 'a' ∧
      byteLen (takeBytes (List.replicate 2100 'a') cut) = cut ∧
      isCharBoundary (List.replicate 2100 'a') cut = true ∧
      cut ≤ 2000 - byteLen ([] : Str) - byteLen "[TRUNCATED]".toList ∧
      ∀ j, j ≤ 2000 - byteLen ([] : Str) - byteLen "[TRUNCATED]".toList →
        isCharBoundary (List.replicate 2100 'a') j = true → j ≤ cut :=
  reply_length_truncation_spec.1 (List.replicate 2100 'a') [] "[TRUNCATED]".toList
    (by decide)
    (by norm_num [byteLen_replicate, byteLen_nil, show Char.utf8Size 'a' = 1 from rfl])

/-- C8: under the precondition `len(closing) + len(marker) ≤ 2000` the
cut-off-point search of the length-truncation branch is a well-defined total
function: index 0 is always a char boundary, the result of the loop is a char
boundary no greater than its starting index and strictly inside the body
whenever the length branch is taken, and the formatter produces a message;
without the precondition the unsigned subtraction
`2000 - len(closing) - len(marker)` underflows and the length branch has no
result. -/
theorem cut_off_loop_wellDefined :
    (∀ text_body text_end truncation_msg : Str,
      byteLen text_end + byteLen truncation_msg ≤ 2000 →
      isCharBoundary text_body 0 = true ∧
      cutOffPoint text_body (2000 - byteLen text_end - byteLen truncation_msg) ≤
        2000 - byteLen text_end - byteLen truncation_msg ∧
      isCharBoundary text_body
        (cutOffPoint text_body
          (2000 - byteLen text_end - byteLen truncation_msg)) = true ∧
      (byteLen text_body + byteLen text_end > 2000 →
        cutOffPoint text_body (2000 - byteLen text_end - byteLen truncation_msg) <
          byteLen text_body) ∧
      (reply_potentially_long_text text_body text_end truncation_msg).isSome
        = true) ∧
    ∀ text_body text_end truncation_msg : Str,
      2000 < byteLen text_end + byteLen truncation_msg →
      byteLen text_body + byteLen text_end > 2000 →
      reply_potentially_long_text text_body text_end truncation_msg = none := by
  constructor
  · intro text_body text_end truncation_msg h1
    refine ⟨isCharBoundary_zero _, cutOffPoint_le _ _, cutOffPoint_boundary _ _,
      ?_, ?_⟩
    · intro h2
      have hle := cutOffPoint_le text_body
        (2000 - byteLen text_end - byteLen truncation_msg)
      omega
    · by_cases hb : byteLen text_body + byteLen text_end > 2000
      · simp only [reply_potentially_long_text]
        rw [if_pos hb, if_pos h1]
        rfl
      · simp only [reply_potentially_long_text]
        rw [if_neg hb]
        split <;> rfl
  · intro text_body text_end truncation_msg h1 h2
    simp only [reply_potentially_long_text]
    rw [if_pos h2, if_neg (by omega)]

/-- Witness for C8: a one-character body with empty closing and marker for
the well-definedness part, and an over-long closing for the underflow part. -/
theorem cut_off_loop_wellDefined_witness :
    (isCharBoundary ['a'] 0 = true ∧
     cutOffPoint ['a'] (2000 - byteLen ([] : Str) - byteLen ([] : Str)) ≤
       2000 - byteLen ([] : Str) - byteLen ([] : Str) ∧
     isCharBoundary ['a']
       (cutOffPoint ['a']
         (2000 - byteLen ([] : Str) - byteLen ([] : Str))) = true ∧
     (byteLen ['a'] + byteLen ([] : Str) > 2000 →
       cutOffPoint ['a'] (2000 - byteLen ([] : Str) - byteLen ([] : Str)) <
         byteLen ['a']) ∧
     (reply_potentially_long_text ['a'] [] []).isSome = true) ∧
    reply_potentially_long_text [] (List.replicate 2001 'a') [] = none :=
  ⟨cut_off_loop_wellDefined.1 ['a'] [] [] (by decide),
   cut_off_loop_wellDefined.2 [] (List.replicate 2001 'a') []
     (by norm_num [byteLen_replicate, byteLen_nil,
       show Char.utf8Size 'a' = 1 from rfl])
     (by norm_num [byteLen_replicate, byteLen_nil,
       show Char.utf8Size 'a' = 1 from rfl])⟩

/-- C4: the formatter applies exactly one branch per call and checks the
2000-length limit before the 45-line limit: within the length limit, a body
of more than 45 lines yields its first 45 lines joined by newlines, then the
closing, then the marker (a body of 46 one-character lines yields exactly 45
content lines followed by the marker); within both limits the output is the
body plus closing with no marker; over the length limit the length branch
applies even if the line count also exceeds 45. -/
theorem reply_branch_order_spec :
    (∀ text_body text_end truncation_msg : Str,
      byteLen text_body + byteLen text_end ≤ 2000 →
      (rustLines text_body).length > 45 →
      reply_potentially_long_text text_body text_end truncation_msg =
        some (joinNl ((rustLines text_body).take 45) ++ text_end ++
          truncation_msg)) ∧
    (∀ text_body text_end truncation_msg : Str,
      byteLen text_body + byteLen text_end ≤ 2000 →
      (rustLines text_body).length ≤ 45 →
      reply_potentially_long_text text_body text_end truncation_msg =
        some (text_body ++ text_end)) ∧
    (∀ text_body text_end truncation_msg : Str,
      byteLen text_end + byteLen truncation_msg ≤ 2000 →
      byteLen text_body + byteLen text_end > 2000 →
      reply_potentially_long_text text_body text_end truncation_msg =
        some (takeBytes text_body
          (cutOffPoint text_body
            (2000 - byteLen text_end - byteLen truncation_msg)) ++
          text_end ++ truncation_msg)) ∧
    reply_potentially_long_text (joinNl (List.replicate 46 ['a'])) []
        "[TRUNCATED]".toList =
      some (joinNl (List.replicate 45 ['a']) ++ "[TRUNCATED]".toList) ∧
    (reply_potentially_long_text (joinNl (List.replicate 46 ['a'])) []
        "[TRUNCATED]".toList).map (fun out => (rustLines out).length) =
      some 45 := by
  refine ⟨?_, ?_, ?_, by decide, by decide⟩
  · intro text_body text_end truncation_msg h1 h2
    simp only [reply_potentially_long_text]
    rw [if_neg (by omega), if_pos (by simpa [MAX_OUTPUT_LINES] using h2)]
    rfl
  · intro text_body text_end truncation_msg h1 h2
    simp only [reply_potentially_long_text]
    rw [if_neg (by omega), if_neg (by simp [MAX_OUTPUT_LINES]; omega)]
  · intro text_body text_end truncation_msg h1 h2
    simp only [reply_potentially_long_text]
    rw [if_pos h2, if_pos h1]

/-- Witness for C4, instantiated at a 46-one-character-line body within the
length limit, a one-line body within both limits, and an over-long body. -/
theorem reply_branch_order_spec_witness :
    (reply_potentially_long_text (joinNl (List.replicate 46 ['a'])) ['b']
        "[TRUNCATED]".toList =
      some (joinNl ((rustLines (joinNl (List.replicate 46 ['a']))).take 45) ++
        ['b'] ++ "[TRUNCATED]".toList)) ∧
    (reply_potentially_long_text ['a'] ['b'] "[TRUNCATED]".toList =
      some (['a'] ++ ['b'])) ∧
    (reply_potentially_long_text (List.replicate 2100 'a') ['b']
        "[TRUNCATED]".toList =
      some (takeBytes (List.replicate 2100 'a')
        (cutOffPoint (List.replicate 2100 'a')
          (2000 - byteLen ['b'] - byteLen "[TRUNCATED]".toList)) ++
        ['b'] ++ "[TRUNCATED]".toList)) :=
  ⟨reply_branch_order_spec.1 (joinNl (List.replicate 46 ['a'])) ['b']
      "[TRUNCATED]".toList (by decide) (by decide),
   reply_branch_order_spec.2.1 ['a'] ['b'] "[TRUNCATED]".toList
      (by decide) (by decide),
   reply_branch_order_spec.2.2.1 (List.replicate 2100 'a') ['b']
      "[TRUNCATED]".toList (by decide)
      (by norm_num [byteLen_replicate, byteLen_cons, byteLen_nil,
        show Char.utf8Size 'a' = 1 from rfl, show Char.utf8Size 'b' = 1 from rfl])⟩

/-- C2: the five code-fence extraction vectors: a single-backtick fence
yields its trimmed interior, a triple fence with a language tag and newline
yields the code alone, a triple fence whose tag is preceded by a space keeps
the tag, and plain text fails with MissingCodeblock. -/
theorem extract_code_vectors :
    extract_code "\x60hello\x60".toList = Except.ok "hello".toList ∧
    extract_code "\x60  hello \x60".toList = Except.ok "hello".toList ∧
    extract_code "\x60\x60\x60rust\nhello\n\x60\x60\x60".toList =
      Except.ok "hello".toList ∧
    extract_code "\x60\x60\x60 rust\nhello\n\x60\x60\x60".toList =
      Except.ok "rust\nhello".toList ∧
    extract_code "plain text".toList = Except.error Error.MissingCodeblock := by
  exact ⟨by decide, by decide, by decide, by decide, by decide⟩

/-- C3: any input whose trimmed form starts and ends with a triple backtick
fence but contains no whitespace character after the opening fence fails
extraction with MissingCodeblock (there is no boundary for the language
tag). -/
theorem extract_code_no_ws_fails (s : Str)
    (hpre : "\x60\x60\x60".toList.isPrefixOf (rustTrim s) = true)
    (hsuf : "\x60\x60\x60".toList.isSuffixOf (rustTrim s) = true)
    (hnows : ∀ c ∈ (rustTrim s).drop 3, rustIsWhitespace c = false) :
    extract_code s = Except.error Error.MissingCodeblock := by
  obtain ⟨u, hu⟩ := List.isPrefixOf_iff_prefix.mp hpre
  have hdrop : (rustTrim s).drop 3 = u := by rw [← hu]; rfl
  have hfind : findWs (rustTrim s) = none := by
    apply findWs_eq_none
    intro c hc
    rw [← hu] at hc
    rcases List.mem_append.mp hc with h3 | h3
    · have hb : c = '\x60' := by simpa using h3
      subst hb
      decide
    · exact hnows c (by rw [hdrop]; exact h3)
  simp only [extract_code, extract_code_inner, hfind, Bool.and_eq_true,
    List.isPrefixOf_iff_prefix, List.isSuffixOf_iff_suffix, decide_eq_true_eq]
  rw [if_pos ⟨ List.isPrefixOf_iff_prefix.mp hpre, List.isSuffixOf_iff_suffix.mp hsuf⟩]

/-- Witness for C3, at the input of a triple fence whose language tag is
immediately followed by the closing fence with no whitespace anywhere. -/
theorem extract_code_no_ws_fails_witness :
    extract_code "\x60\x60\x60rust\x60\x60\x60".toList =
      Except.error Error.MissingCodeblock :=
  extract_code_no_ws_fails "\x60\x60\x60rust\x60\x60\x60".toList
    (by decide) (by decide) (by decide)

/-- C9: extract_code is total and the only error it produces is
MissingCodeblock — every checked sub-slice failure collapses to it — and the
degenerate inputs of a single backtick and a bare triple fence return
Err(MissingCodeblock) instead of slicing out of range. -/
theorem extract_code_total :
    (∀ s : Str, extract_code s = Except.error Error.MissingCodeblock ∨
      ∃ code, extract_code s = Except.ok code) ∧
    extract_code ['\x60'] = Except.error Error.MissingCodeblock ∧
    extract_code "\x60\x60\x60".toList = Except.error Error.MissingCodeblock := by
  refine ⟨?_, by decide, by decide⟩
  intro s
  cases h : extract_code_inner s with
  | none =>
    left
    simp [extract_code, h]
  | some code =>
    right
    exact ⟨code, by simp [extract_code, h]⟩

/-- C5: on a delete event, a tracked invoking message id leads to exactly one
delete call, for the recorded response id, and its record is removed while
every other record is untouched; an untracked message id is a no-op: no
delete call, map unchanged. -/
theorem message_delete_spec :
    ∀ (history : List (Nat × Nat)) (message_id : Nat),
      (∀ response_id, lookupAssoc history message_id = some response_id →
        (message_delete history message_id).2 = [response_id] ∧
        lookupAssoc (message_delete history message_id).1 message_id = none ∧
        ∀ k, k ≠ message_id →
          lookupAssoc (message_delete history message_id).1 k =
            lookupAssoc history k) ∧
      (lookupAssoc history message_id = none →
        message_delete history message_id = (history, [])) := by
  intro history message_id
  constructor
  · intro response_id hrid
    have hmd : message_delete history message_id =
        (removeKey history message_id, [response_id]) := by
      simp [message_delete, hrid]
    rw [hmd]
    exact ⟨rfl, lookupAssoc_removeKey_self history message_id,
      fun k hk => lookupAssoc_removeKey_other history message_id k hk⟩
  · intro hnone
    simp [message_delete, hnone]

/-- Witness for C5: the history map [(1, 10), (2, 20)], deleting tracked
message 1 and untracked message 3. -/
theorem message_delete_spec_witness :
    (message_delete [(1, 10), (2, 20)] 1).2 = [10] ∧
    lookupAssoc (message_delete [(1, 10), (2, 20)] 1).1 1 = none ∧
    lookupAssoc (message_delete [(1, 10), (2, 20)] 1).1 2 =
      lookupAssoc [(1, 10), (2, 20)] 2 ∧
    message_delete [(1, 10), (2, 20)] 3 = ([(1, 10), (2, 20)], []) :=
  ⟨((message_delete_spec [(1, 10), (2, 20)] 1).1 10 (by decide)).1,
   ((message_delete_spec [(1, 10), (2, 20)] 1).1 10 (by decide)).2.1,
   ((message_delete_spec [(1, 10), (2, 20)] 1).1 10 (by decide)).2.2 2 (by decide),
   (message_delete_spec [(1, 10), (2, 20)] 3).2 (by decide)⟩

/-- C6: dispatching any of the four protected commands (slowmode, kick, ban,
CoC, each guarded by is_mod) for a user without the "mod" role never runs the
handler and replies with the MissingPermissions text verbatim. -/
theorem protected_guard_denies :
    ∀ p ∈ protectedCommands,
      ∀ (handler : Args → Except Error Unit) (args : Args),
        args.hasRole "mod" = false →
        dispatch p.2 handler args =
          ⟨false, some "You are not allowed to use this command"⟩ ∧
        (dispatch p.2 handler args).handlerRan = false := by
  intro p hp handler args hrole
  have hguard : p.2 = is_mod := by
    simp only [protectedCommands, List.mem_cons, List.not_mem_nil, or_false] at hp
    rcases hp with h | h | h | h <;> rw [h]
  rw [hguard]
  constructor
  · simp [dispatch, is_mod, hrole, Error.display]
  · simp [dispatch, is_mod, hrole]

/-- Witness for C6: the protected slowmode command, a handler that would
succeed, and a requester holding no roles. -/
theorem protected_guard_denies_witness :
    dispatch ("slowmode", is_mod).2 (fun _ => Except.ok ()) noModArgs =
      ⟨false, some "You are not allowed to use this command"⟩ ∧
    (dispatch ("slowmode", is_mod).2 (fun _ => Except.ok ())
      noModArgs).handlerRan = false :=
  protected_guard_denies ("slowmode", is_mod)
    (by simp [protectedCommands]) (fun _ => Except.ok ()) noModArgs rfl

/-- C7: the generated help menu lists, between the fixed header and footer,
exactly the registered commands whose guard evaluates to Ok(true) for the
requesting user, one line each in registration order; for a requester without
the "mod" role the listed registry entries are exactly the twelve unprotected
ones, and for a "mod" holder all sixteen. -/
theorem main_menu_spec :
    (∀ (args : Args) (commands : List MenuEntry),
      main_menu args commands =
        "Commands:\n".toList ++
        ((commands.filter fun e =>
            decide (e.guard args = Except.ok true)).map
          (fun e => menuLine e.name e.description)).flatten ++
        menuLine "help" "This menu" ++
        "\nType ?help command for more info on a command.".toList ++
        "\n\nAdditional Info:\n".toList ++
        "\tYou can edit your message to the bot and the bot will edit its response.".toList) ∧
    (∀ args : Args, args.hasRole "mod" = false →
      (helpMenu.filter fun e => decide (e.guard args = Except.ok true)) =
        helpMenu.take 12) ∧
    (∀ args : Args, args.hasRole "mod" = true →
      (helpMenu.filter fun e => decide (e.guard args = Except.ok true)) =
        helpMenu) := by
  refine ⟨?_, ?_, ?_⟩
  · intro args commands
    simp only [main_menu]
    rw [foldl_menu_filter (fun e => e.guard args = Except.ok true)
      (fun e => menuLine e.name e.description) commands]
  · intro args h
    simp [helpMenu, is_mod, alwaysAllow, h]
  · intro args h
    simp [helpMenu, is_mod, alwaysAllow, h]

/-- Witness for C7: a requester holding no roles sees exactly the twelve
unprotected entries; one holding "mod" sees all sixteen. -/
theorem main_menu_spec_witness :
    (helpMenu.filter fun e =>
      decide (e.guard noModArgs = Except.ok true)) = helpMenu.take 12 ∧
    (helpMenu.filter fun e =>
      decide (e.guard modArgs = Except.ok true)) = helpMenu :=
  ⟨main_menu_spec.2.1 noModArgs rfl, main_menu_spec.2.2 modArgs rfl⟩

/-- C10: the help handler replies with the rendered menu only when the
invocation body is empty; for every non-empty body it succeeds without
sending anything. -/
theorem help_handler_spec :
    ∀ (menu : List MenuEntry) (args : Args),
      (args.body ≠ [] → helpCommand menu args = Except.ok none) ∧
      (args.body = [] → helpCommand menu args =
        Except.ok (some ("\x60\x60\x60".toList ++ main_menu args menu ++
          "\x60\x60\x60".toList))) := by
  intro menu args
  constructor
  · intro h
    simp [helpCommand, h]
  · intro h
    simp [helpCommand, h]

/-- Witness for C10: a non-empty body yields success with no message; an
empty body yields the fenced menu. -/
theorem help_handler_spec_witness :
    helpCommand helpMenu ⟨['x'], fun _ => false⟩ = Except.ok none ∧
    helpCommand helpMenu noModArgs =
      Except.ok (some ("\x60\x60\x60".toList ++ main_menu noModArgs helpMenu ++
        "\x60\x60\x60".toList)) :=
  ⟨(help_handler_spec helpMenu ⟨['x'], fun _ => false⟩).1 (by decide),
   (help_handler_spec helpMenu noModArgs).2 rfl⟩

end Rustbot
